import Mathlib

/-!
Verification of the in-memory user store of the User Management API
(src/main.py).  The service keeps a single global list of user records
and exposes five operations over it: list, get by id, create, update and
delete.  Each Python handler is embedded below as a pure Lean function;
the mutable global list becomes explicit state passing, and the raised
HTTP exceptions become an explicit error type.
-/

namespace UserApi

/-- A calendar date (year, month, day), mirroring Python's datetime.date
as it is used by the service: dates are only stored and compared, never
computed with. -/
structure Date where
  year : Nat
  month : Nat
  day : Nat
deriving DecidableEq, Repr

/-- The User record of src/main.py (class User, lines 20-24): id, username,
wallet and birthdate.  The wallet field is a Python float in the source; the
service only ever stores and copies it (no arithmetic), so it is embedded as
an exact rational number. -/
structure User where
  id : Int
  username : String
  wallet : Rat
  birthdate : Date
deriving DecidableEq, Repr

/-- The two error kinds the service raises: HTTP 404 for a missing id on
get, update and delete, and HTTP 400 for a duplicate id on create. -/
inductive ApiError where
  | notFound
  | alreadyExists
deriving DecidableEq, Repr

/-- The HTTP status code each error surfaces as (the status_code argument
of the raised HTTPException). -/
def ApiError.statusCode : ApiError → Nat
  | .notFound => 404
  | .alreadyExists => 400

/-- The seeded initial database (db_users, lines 28-31 of src/main.py). -/
def db_users : List User :=
  [ { id := 1, username := "user1", wallet := 100, birthdate := ⟨1990, 1, 1⟩ },
    { id := 2, username := "user2", wallet := 200, birthdate := ⟨1995, 5, 15⟩ } ]

/-- GET /users/ (read_users, line 57): returns the whole database. -/
def read_users (db : List User) : List User :=
  db

/-- GET /users/id (read_user, lines 86-89): the first record whose id
matches, or a 404 error when there is none. -/
def read_user (db : List User) (user_id : Int) : Except ApiError User :=
  match db.find? (fun u => u.id == user_id) with
  | some u => .ok u
  | none => .error .notFound

/-- POST /users/ (create_user, lines 117-120): a 400 error when some stored
record already carries the id, otherwise the record is appended at the end
and returned. -/
def create_user (db : List User) (user : User) : Except ApiError (User × List User) :=
  if db.any (fun u => u.id == user.id) then
    .error .alreadyExists
  else
    .ok (user, db ++ [user])

/-- The in-place field assignment performed by update_user (lines 149-151):
username, wallet and birthdate are overwritten from the request body, the
stored id is untouched. -/
def applyUpdate (db_user updated_user : User) : User :=
  { db_user with
      username := updated_user.username,
      wallet := updated_user.wallet,
      birthdate := updated_user.birthdate }

/-- PUT /users/id (update_user, lines 147-153): scan the list; the first
record whose id matches is mutated in place and returned; when the scan
finds nothing, a 404 error is raised. -/
def update_user (db : List User) (user_id : Int) (updated_user : User) :
    Except ApiError (User × List User) :=
  match db with
  | [] => .error .notFound
  | u :: rest =>
    if u.id = user_id then
      let r := applyUpdate u updated_user
      .ok (r, r :: rest)
    else
      match update_user rest user_id updated_user with
      | .ok (r, rest') => .ok (r, u :: rest')
      | .error e => .error e

/-- DELETE /users/id (delete_user, lines 174-178): the first record whose
id matches is popped from the list and returned; when there is none, a 404
error is raised. -/
def delete_user (db : List User) (user_id : Int) : Except ApiError (User × List User) :=
  match db with
  | [] => .error .notFound
  | u :: rest =>
    if u.id = user_id then
      .ok (u, rest)
    else
      match delete_user rest user_id with
      | .ok (d, rest') => .ok (d, u :: rest')
      | .error e => .error e

/-- One client request: each constructor is one of the five handlers with
its inputs. -/
inductive Op where
  | list
  | get (user_id : Int)
  | create (user : User)
  | update (user_id : Int) (updated_user : User)
  | delete (user_id : Int)

/-- The state of the global db_users list after serving one request: a
failing request raises before any mutation, so it leaves the list as it
was; list and get never mutate it. -/
def opStep (db : List User) : Op → List User
  | .list => read_users db
  | .get _ => db
  | .create user =>
    match create_user db user with
    | .ok (_, db') => db'
    | .error _ => db
  | .update user_id updated_user =>
    match update_user db user_id updated_user with
    | .ok (_, db') => db'
    | .error _ => db
  | .delete user_id =>
    match delete_user db user_id with
    | .ok (_, db') => db'
    | .error _ => db

/-- The state of the global list after serving a sequence of requests,
starting from a given state. -/
def run (db : List User) (ops : List Op) : List User :=
  ops.foldl opStep db

/-- The documented store invariant: at most one stored record per id. -/
def UniqueIds (db : List User) : Prop :=
  (db.map User.id).Nodup

instance : DecidablePred UniqueIds := fun db =>
  inferInstanceAs (Decidable (db.map User.id).Nodup)

/-- The record of the spec's end-to-end example: POST with id 3,
username new_user, wallet 50.0, birthdate 2000-01-01. -/
def newUser : User :=
  { id := 3, username := "new_user", wallet := 50, birthdate := ⟨2000, 1, 1⟩ }

/-- A concrete update payload whose id (99) differs from any stored id,
used to exercise the fact that update ignores the id of its input. -/
def updInput : User :=
  { id := 99, username := "updated_user", wallet := 150, birthdate := ⟨1991, 1, 1⟩ }

/-- The stored record with id 1 after applying updInput to it: the id is
kept, the other three fields come from updInput. -/
def updatedSeed1 : User :=
  { id := 1, username := "updated_user", wallet := 150, birthdate := ⟨1991, 1, 1⟩ }

/-- The second seeded record (id 2). -/
def seedUser2 : User :=
  { id := 2, username := "user2", wallet := 200, birthdate := ⟨1995, 5, 15⟩ }

/-! ### Basic lemmas about the five handlers -/

theorem applyUpdate_id (u upd : User) : (applyUpdate u upd).id = u.id := rfl

theorem read_user_error_iff (db : List User) (uid : Int) :
    read_user db uid = Except.error ApiError.notFound ↔ ∀ u ∈ db, u.id ≠ uid := by
  unfold read_user
  cases h : db.find? (fun u => u.id == uid) with
  | none =>
    rw [List.find?_eq_none] at h
    simpa using h
  | some u =>
    have hm := List.mem_of_find?_eq_some h
    have hp := List.find?_some h
    simp only [beq_iff_eq] at hp
    constructor
    · intro hcontra; cases hcontra
    · intro hall; exact (hall u hm hp).elim

theorem read_user_ok_elim (db : List User) (uid : Int) (u : User)
    (h : read_user db uid = Except.ok u) : u ∈ db ∧ u.id = uid := by
  unfold read_user at h
  cases hf : db.find? (fun v => v.id == uid) with
  | none => rw [hf] at h; cases h
  | some v =>
    rw [hf] at h
    cases h
    have hp := List.find?_some hf
    simp only [beq_iff_eq] at hp
    exact ⟨List.mem_of_find?_eq_some hf, hp⟩

theorem read_user_ok_of_mem (db : List User) (uid : Int)
    (h : ∃ u ∈ db, u.id = uid) :
    ∃ r, read_user db uid = Except.ok r := by
  unfold read_user
  cases hf : db.find? (fun v => v.id == uid) with
  | none =>
    rw [List.find?_eq_none] at hf
    obtain ⟨u, hu, hid⟩ := h
    exact ((hf u hu) (by simpa using hid)).elim
  | some v => exact ⟨v, rfl⟩

theorem create_user_dup (db : List User) (user : User)
    (h : ∃ u ∈ db, u.id = user.id) :
    create_user db user = Except.error ApiError.alreadyExists := by
  unfold create_user
  rw [if_pos]
  rw [List.any_eq_true]
  obtain ⟨u, hu, hid⟩ := h
  exact ⟨u, hu, by simpa using hid⟩

theorem create_user_fresh (db : List User) (user : User)
    (h : ∀ u ∈ db, u.id ≠ user.id) :
    create_user db user = Except.ok (user, db ++ [user]) := by
  unfold create_user
  rw [if_neg]
  rw [List.any_eq_true]
  rintro ⟨u, hu, hid⟩
  exact h u hu (by simpa using hid)

theorem create_user_ok_elim (db : List User) (user w : User) (db' : List User)
    (h : create_user db user = Except.ok (w, db')) :
    w = user ∧ db' = db ++ [user] ∧ ∀ u ∈ db, u.id ≠ user.id := by
  unfold create_user at h
  by_cases ha : db.any (fun u => u.id == user.id) = true
  · rw [if_pos ha] at h; cases h
  · rw [if_neg ha] at h
    cases h
    refine ⟨rfl, rfl, fun u hu hid => ha ?_⟩
    rw [List.any_eq_true]
    exact ⟨u, hu, by simpa using hid⟩

theorem update_user_ok_decomp (db : List User) (uid : Int) (upd r : User)
    (db' : List User) (h : update_user db uid upd = Except.ok (r, db')) :
    ∃ l₁ u l₂, db = l₁ ++ u :: l₂ ∧ (∀ v ∈ l₁, v.id ≠ uid) ∧ u.id = uid ∧
      r = applyUpdate u upd ∧ db' = l₁ ++ r :: l₂ := by
  induction db generalizing db' with
  | nil => simp [update_user] at h
  | cons u rest ih =>
    by_cases hid : u.id = uid
    · rw [update_user, if_pos hid] at h
      cases h
      exact ⟨[], u, rest, rfl, by simp, hid, rfl, rfl⟩
    · rw [update_user, if_neg hid] at h
      cases hrec : update_user rest uid upd with
      | error e => rw [hrec] at h; cases h
      | ok p =>
        obtain ⟨r₀, rest'⟩ := p
        rw [hrec] at h
        cases h
        obtain ⟨l₁, w, l₂, hdb, hl₁, hwid, hr, hdb'⟩ := ih rest' hrec
        refine ⟨u :: l₁, w, l₂, by rw [hdb]; rfl, ?_, hwid, hr, by rw [hdb']; rfl⟩
        intro v hv
        rcases List.mem_cons.mp hv with hv | hv
        · exact hv ▸ hid
        · exact hl₁ v hv

theorem update_user_error_elim (db : List User) (uid : Int) (upd : User)
    (e : ApiError) (h : update_user db uid upd = Except.error e) :
    e = ApiError.notFound ∧ ∀ u ∈ db, u.id ≠ uid := by
  induction db with
  | nil =>
    rw [update_user] at h
    cases h
    exact ⟨rfl, by simp⟩
  | cons u rest ih =>
    by_cases hid : u.id = uid
    · rw [update_user, if_pos hid] at h; cases h
    · rw [update_user, if_neg hid] at h
      cases hrec : update_user rest uid upd with
      | error e₂ =>
        rw [hrec] at h
        cases h
        obtain ⟨he, hall⟩ := ih hrec
        refine ⟨he, fun v hv => ?_⟩
        rcases List.mem_cons.mp hv with hv | hv
        · exact hv ▸ hid
        · exact hall v hv
      | ok p => rw [hrec] at h; cases h

theorem update_user_ok_of_mem (db : List User) (uid : Int) (upd : User)
    (h : ∃ u ∈ db, u.id = uid) :
    ∃ r db', update_user db uid upd = Except.ok (r, db') := by
  cases hc : update_user db uid upd with
  | ok p =>
    obtain ⟨r, db'⟩ := p
    exact ⟨r, db', rfl⟩
  | error e =>
    obtain ⟨he, hall⟩ := update_user_error_elim db uid upd e hc
    obtain ⟨u, hu, hid⟩ := h
    exact absurd hid (hall u hu)

theorem update_user_error_of_not_mem (db : List User) (uid : Int) (upd : User)
    (h : ∀ u ∈ db, u.id ≠ uid) :
    update_user db uid upd = Except.error ApiError.notFound := by
  cases hc : update_user db uid upd with
  | ok p =>
    obtain ⟨l₁, u, l₂, hdb, _, huid, _, _⟩ :=
      update_user_ok_decomp db uid upd p.1 p.2 (by rw [hc])
    exact absurd huid (h u (by rw [hdb]; exact List.mem_append_right l₁ (List.mem_cons_self u l₂)))
  | error e =>
    obtain ⟨he, _⟩ := update_user_error_elim db uid upd e hc
    rw [he]

theorem delete_user_ok_decomp (db : List User) (uid : Int) (d : User)
    (db' : List User) (h : delete_user db uid = Except.ok (d, db')) :
    ∃ l₁ l₂, db = l₁ ++ d :: l₂ ∧ (∀ v ∈ l₁, v.id ≠ uid) ∧ d.id = uid ∧
      db' = l₁ ++ l₂ := by
  induction db generalizing db' with
  | nil => simp [delete_user] at h
  | cons u rest ih =>
    by_cases hid : u.id = uid
    · rw [delete_user, if_pos hid] at h
      cases h
      exact ⟨[], rest, rfl, by simp, hid, rfl⟩
    · rw [delete_user, if_neg hid] at h
      cases hrec : delete_user rest uid with
      | error e => rw [hrec] at h; cases h
      | ok p =>
        obtain ⟨d₀, rest'⟩ := p
        rw [hrec] at h
        cases h
        obtain ⟨l₁, l₂, hdb, hl₁, hdid, hdb'⟩ := ih rest' hrec
        refine ⟨u :: l₁, l₂, by rw [hdb]; rfl, ?_, hdid, by rw [hdb']; rfl⟩
        intro v hv
        rcases List.mem_cons.mp hv with hv | hv
        · exact hv ▸ hid
        · exact hl₁ v hv

theorem delete_user_error_elim (db : List User) (uid : Int)
    (e : ApiError) (h : delete_user db uid = Except.error e) :
    e = ApiError.notFound ∧ ∀ u ∈ db, u.id ≠ uid := by
  induction db with
  | nil =>
    rw [delete_user] at h
    cases h
    exact ⟨rfl, by simp⟩
  | cons u rest ih =>
    by_cases hid : u.id = uid
    · rw [delete_user, if_pos hid] at h; cases h
    · rw [delete_user, if_neg hid] at h
      cases hrec : delete_user rest uid with
      | error e₂ =>
        rw [hrec] at h
        cases h
        obtain ⟨he, hall⟩ := ih hrec
        refine ⟨he, fun v hv => ?_⟩
        rcases List.mem_cons.mp hv with hv | hv
        · exact hv ▸ hid
        · exact hall v hv
      | ok p => rw [hrec] at h; cases h

theorem delete_user_ok_of_mem (db : List User) (uid : Int)
    (h : ∃ u ∈ db, u.id = uid) :
    ∃ d db', delete_user db uid = Except.ok (d, db') := by
  cases hc : delete_user db uid with
  | ok p =>
    obtain ⟨d, db'⟩ := p
    exact ⟨d, db', rfl⟩
  | error e =>
    obtain ⟨_, hall⟩ := delete_user_error_elim db uid e hc
    obtain ⟨u, hu, hid⟩ := h
    exact absurd hid (hall u hu)

theorem delete_user_error_of_not_mem (db : List User) (uid : Int)
    (h : ∀ u ∈ db, u.id ≠ uid) :
    delete_user db uid = Except.error ApiError.notFound := by
  cases hc : delete_user db uid with
  | ok p =>
    obtain ⟨l₁, l₂, hdb, _, hdid, _⟩ :=
      delete_user_ok_decomp db uid p.1 p.2 (by rw [hc])
    exact absurd hdid (h p.1 (by rw [hdb]; exact List.mem_append_right l₁ (List.mem_cons_self p.1 l₂)))
  | error e =>
    obtain ⟨he, _⟩ := delete_user_error_elim db uid e hc
    rw [he]

/-! ### Preservation of the uniqueness invariant -/

theorem update_user_map_id (db : List User) (uid : Int) (upd r : User)
    (db' : List User) (h : update_user db uid upd = Except.ok (r, db')) :
    db'.map User.id = db.map User.id := by
  obtain ⟨l₁, u, l₂, hdb, _, _, hr, hdb'⟩ := update_user_ok_decomp db uid upd r db' h
  rw [hdb, hdb']
  simp [hr, applyUpdate_id]

theorem delete_user_sublist (db : List User) (uid : Int) (d : User)
    (db' : List User) (h : delete_user db uid = Except.ok (d, db')) :
    db'.Sublist db := by
  obtain ⟨l₁, l₂, hdb, _, _, hdb'⟩ := delete_user_ok_decomp db uid d db' h
  rw [hdb, hdb']
  exact List.Sublist.append_left (List.sublist_cons_self d l₂) l₁

theorem uniqueIds_opStep (db : List User) (op : Op) (h : UniqueIds db) :
    UniqueIds (opStep db op) := by
  cases op with
  | list => exact h
  | get _ => exact h
  | create user =>
    rw [opStep]
    cases hc : create_user db user with
    | error _ => exact h
    | ok p =>
      obtain ⟨w, db'⟩ := p
      obtain ⟨_, hdb', hfresh⟩ := create_user_ok_elim db user w db' hc
      rw [hdb']
      unfold UniqueIds at h ⊢
      rw [List.map_append]
      refine List.Nodup.append h (by simp) ?_
      intro a ha hb
      simp only [List.map_cons, List.map_nil, List.mem_singleton] at hb
      subst hb
      obtain ⟨v, hv, hvid⟩ := List.mem_map.mp ha
      exact hfresh v hv hvid
  | update uid upd =>
    rw [opStep]
    cases hc : update_user db uid upd with
    | error _ => exact h
    | ok p =>
      unfold UniqueIds at h ⊢
      rw [update_user_map_id db uid upd p.1 p.2 (by rw [hc])]
      exact h
  | delete uid =>
    rw [opStep]
    cases hc : delete_user db uid with
    | error _ => exact h
    | ok p =>
      exact List.Nodup.sublist
        ((delete_user_sublist db uid p.1 p.2 (by rw [hc])).map User.id) h

theorem uniqueIds_run (db : List User) (ops : List Op) (h : UniqueIds db) :
    UniqueIds (run db ops) := by
  induction ops generalizing db with
  | nil => exact h
  | cons op rest ih => exact ih (opStep db op) (uniqueIds_opStep db op h)

theorem uniqueIds_db_users : UniqueIds db_users := by decide

theorem read_user_append_self (db : List User) (u : User)
    (h : ∀ v ∈ db, v.id ≠ u.id) :
    read_user (db ++ [u]) u.id = Except.ok u := by
  unfold read_user
  have hf : (db ++ [u]).find? (fun v => v.id == u.id) = some u := by
    induction db with
    | nil => simp
    | cons v rest ih =>
      rw [List.cons_append, List.find?_cons_of_neg]
      · exact ih fun w hw => h w (List.mem_cons_of_mem v hw)
      · simp [h v (List.mem_cons_self v rest)]
  rw [hf]

theorem uniqueIds_middle (l₁ l₂ : List User) (d : User)
    (h : UniqueIds (l₁ ++ d :: l₂)) : ∀ v ∈ l₂, v.id ≠ d.id := by
  unfold UniqueIds at h
  rw [List.map_append, List.map_cons] at h
  have h₂ := h.of_append_right
  rw [List.nodup_cons] at h₂
  intro v hv hvid
  exact h₂.1 (hvid ▸ List.mem_map_of_mem User.id hv)

/-! ### The claims -/

/-- C1: starting from the seeded initial state (records with ids 1 and 2),
after any sequence of the five operations the store satisfies the
uniqueness invariant: at most one stored record per id value. -/
theorem list_create_update_delete_preserve_unique_ids (ops : List Op) :
    UniqueIds (run db_users ops) :=
  uniqueIds_run db_users ops uniqueIds_db_users

/-- C2: for every store state and every input record whose id is already
stored, create signals AlreadyExists (HTTP 400) and the collection
afterwards is exactly the collection before the call. -/
theorem create_duplicate_id_fails_unchanged (db : List User) (user : User)
    (h : ∃ u ∈ db, u.id = user.id) :
    create_user db user = Except.error ApiError.alreadyExists ∧
    ApiError.alreadyExists.statusCode = 400 ∧
    opStep db (Op.create user) = db := by
  have hc := create_user_dup db user h
  refine ⟨hc, rfl, ?_⟩
  rw [opStep, hc]

theorem create_duplicate_id_fails_unchanged_holds :
    create_user db_users { id := 1, username := "dup", wallet := 1, birthdate := ⟨2000, 1, 1⟩ }
      = Except.error ApiError.alreadyExists ∧
    ApiError.alreadyExists.statusCode = 400 ∧
    opStep db_users (Op.create { id := 1, username := "dup", wallet := 1, birthdate := ⟨2000, 1, 1⟩ })
      = db_users :=
  create_duplicate_id_fails_unchanged db_users
    { id := 1, username := "dup", wallet := 1, birthdate := ⟨2000, 1, 1⟩ } (by decide)

/-- C3: for every store state and every input record with a fresh id,
create appends the record at the end of the collection and returns it. -/
theorem create_fresh_id_appends (db : List User) (user : User)
    (h : ∀ u ∈ db, u.id ≠ user.id) :
    create_user db user = Except.ok (user, db ++ [user]) :=
  create_user_fresh db user h

theorem create_fresh_id_appends_holds :
    create_user db_users newUser = Except.ok (newUser, db_users ++ [newUser]) :=
  create_fresh_id_appends db_users newUser (by decide)

/-- C4: for every store state and every id, get signals NotFound
(HTTP 404) exactly when no stored record has that id; when some stored
record has the id, get succeeds, and any returned record is a stored
record with the requested id; the store is unchanged in both cases. -/
theorem get_not_found_iff_absent (db : List User) (uid : Int) :
    (read_user db uid = Except.error ApiError.notFound ↔ ∀ u ∈ db, u.id ≠ uid) ∧
    ((∃ u ∈ db, u.id = uid) → ∃ r, read_user db uid = Except.ok r) ∧
    (∀ u, read_user db uid = Except.ok u → u ∈ db ∧ u.id = uid) ∧
    ApiError.notFound.statusCode = 404 ∧
    opStep db (Op.get uid) = db :=
  ⟨read_user_error_iff db uid, read_user_ok_of_mem db uid,
    fun u h => read_user_ok_elim db uid u h, rfl, rfl⟩

theorem get_not_found_iff_absent_holds :
    ((read_user db_users 3 = Except.error ApiError.notFound ↔ ∀ u ∈ db_users, u.id ≠ 3) ∧
     ((∃ u ∈ db_users, u.id = 3) → ∃ r, read_user db_users 3 = Except.ok r) ∧
     (∀ u, read_user db_users 3 = Except.ok u → u ∈ db_users ∧ u.id = 3) ∧
     ApiError.notFound.statusCode = 404 ∧
     opStep db_users (Op.get 3) = db_users) ∧
    ((read_user db_users 1 = Except.error ApiError.notFound ↔ ∀ u ∈ db_users, u.id ≠ 1) ∧
     ((∃ u ∈ db_users, u.id = 1) → ∃ r, read_user db_users 1 = Except.ok r) ∧
     (∀ u, read_user db_users 1 = Except.ok u → u ∈ db_users ∧ u.id = 1) ∧
     ApiError.notFound.statusCode = 404 ∧
     opStep db_users (Op.get 1) = db_users) :=
  ⟨get_not_found_iff_absent db_users 3, get_not_found_iff_absent db_users 1⟩

/-- C5: round trip: creating a record with a fresh id and then getting
that id succeeds and returns exactly the created record (hence the same
id, username, wallet and birthdate fields). -/
theorem create_then_get_round_trip (db : List User) (user : User)
    (h : ∀ u ∈ db, u.id ≠ user.id) :
    create_user db user = Except.ok (user, db ++ [user]) ∧
    read_user (db ++ [user]) user.id = Except.ok user :=
  ⟨create_user_fresh db user h, read_user_append_self db user h⟩

theorem create_then_get_round_trip_holds :
    create_user db_users newUser = Except.ok (newUser, db_users ++ [newUser]) ∧
    read_user (db_users ++ [newUser]) newUser.id = Except.ok newUser :=
  create_then_get_round_trip db_users newUser (by decide)

/-- C6: for every store state containing the given id, update replaces
that record's username, wallet and birthdate wholesale with the input's
values in place: the store afterwards holds the updated record at the
matched record's position with everything else untouched. The id field
of the input is ignored (no stored id changes, even when the input
carries a different id) and the updated record is returned. -/
theorem update_replaces_fields_keeps_id (db : List User) (uid : Int) (upd : User)
    (h : ∃ u ∈ db, u.id = uid) :
    ∃ r db' l₁ u l₂, update_user db uid upd = Except.ok (r, db') ∧
      db = l₁ ++ u :: l₂ ∧ u.id = uid ∧ db' = l₁ ++ r :: l₂ ∧
      r.id = uid ∧ r.username = upd.username ∧ r.wallet = upd.wallet ∧
      r.birthdate = upd.birthdate ∧ db'.map User.id = db.map User.id := by
  obtain ⟨r, db', hok⟩ := update_user_ok_of_mem db uid upd h
  obtain ⟨l₁, u, l₂, hdb, _, huid, hr, hdb'⟩ := update_user_ok_decomp db uid upd r db' hok
  refine ⟨r, db', l₁, u, l₂, hok, hdb, huid, hdb', ?_, ?_, ?_, ?_,
    update_user_map_id db uid upd r db' hok⟩
  · rw [hr, applyUpdate_id, huid]
  · rw [hr]; rfl
  · rw [hr]; rfl
  · rw [hr]; rfl

theorem update_replaces_fields_keeps_id_holds :
    ∃ r db' l₁ u l₂, update_user db_users 1 updInput = Except.ok (r, db') ∧
      db_users = l₁ ++ u :: l₂ ∧ u.id = 1 ∧ db' = l₁ ++ r :: l₂ ∧
      r.id = 1 ∧ r.username = updInput.username ∧ r.wallet = updInput.wallet ∧
      r.birthdate = updInput.birthdate ∧ db'.map User.id = db_users.map User.id :=
  update_replaces_fields_keeps_id db_users 1 updInput (by decide)

/-- C7: for every store state and every id not present in it, update
signals NotFound (HTTP 404) and the collection afterwards is exactly the
collection before the call. -/
theorem update_missing_id_fails_unchanged (db : List User) (uid : Int) (upd : User)
    (h : ∀ u ∈ db, u.id ≠ uid) :
    update_user db uid upd = Except.error ApiError.notFound ∧
    ApiError.notFound.statusCode = 404 ∧
    opStep db (Op.update uid upd) = db := by
  have hc := update_user_error_of_not_mem db uid upd h
  refine ⟨hc, rfl, ?_⟩
  rw [opStep, hc]

theorem update_missing_id_fails_unchanged_holds :
    update_user db_users 3 updInput = Except.error ApiError.notFound ∧
    ApiError.notFound.statusCode = 404 ∧
    opStep db_users (Op.update 3 updInput) = db_users :=
  update_missing_id_fails_unchanged db_users 3 updInput (by decide)

/-- C8: on every reachable store state, deleting a present id removes
that record (the state splits as before-part, removed record, after-part)
and returns it with its prior field values, after which get on that id
signals NotFound; deleting an absent id signals NotFound. -/
theorem delete_removes_then_get_fails (ops : List Op) (uid : Int) :
    ((∃ u ∈ run db_users ops, u.id = uid) →
      ∃ d db', delete_user (run db_users ops) uid = Except.ok (d, db') ∧
        d ∈ run db_users ops ∧ d.id = uid ∧
        (∃ l₁ l₂, run db_users ops = l₁ ++ d :: l₂ ∧ db' = l₁ ++ l₂) ∧
        read_user db' uid = Except.error ApiError.notFound) ∧
    ((∀ u ∈ run db_users ops, u.id ≠ uid) →
      delete_user (run db_users ops) uid = Except.error ApiError.notFound) := by
  have hU : UniqueIds (run db_users ops) :=
    uniqueIds_run db_users ops uniqueIds_db_users
  constructor
  · intro h
    obtain ⟨d, db', hok⟩ := delete_user_ok_of_mem _ uid h
    obtain ⟨l₁, l₂, hdb, hl₁, hdid, hdb'⟩ :=
      delete_user_ok_decomp _ uid d db' hok
    refine ⟨d, db', hok, ?_, hdid, ⟨l₁, l₂, hdb, hdb'⟩, ?_⟩
    · rw [hdb]
      exact List.mem_append_right l₁ (List.mem_cons_self d l₂)
    · rw [read_user_error_iff]
      intro v hv
      rw [hdb'] at hv
      rcases List.mem_append.mp hv with hv | hv
      · exact hl₁ v hv
      · have hmid := uniqueIds_middle l₁ l₂ d (hdb ▸ hU)
        rw [← hdid]
        exact hmid v hv
  · exact delete_user_error_of_not_mem _ uid

theorem delete_removes_then_get_fails_holds :
    ∃ d db', delete_user (run db_users []) 1 = Except.ok (d, db') ∧
      d ∈ run db_users [] ∧ d.id = 1 ∧
      (∃ l₁ l₂, run db_users [] = l₁ ++ d :: l₂ ∧ db' = l₁ ++ l₂) ∧
      read_user db' 1 = Except.error ApiError.notFound :=
  (delete_removes_then_get_fails [] 1).1 (by decide)

/-- C9: list never fails and never modifies the store, returning all
stored records in insertion order; at process start it returns exactly
the two seeded records, id 1 before id 2. -/
theorem list_returns_all_in_order :
    (∀ db : List User, read_users db = db ∧ opStep db Op.list = db) ∧
    read_users db_users =
      [ { id := 1, username := "user1", wallet := 100, birthdate := ⟨1990, 1, 1⟩ },
        { id := 2, username := "user2", wallet := 200, birthdate := ⟨1995, 5, 15⟩ } ] :=
  ⟨fun _ => ⟨rfl, rfl⟩, rfl⟩

/-- C10: frame property: a successful update keeps the collection's
length and order, changes only the targeted position, and leaves every
record whose id differs from the target in the collection; a successful
delete removes exactly one record and keeps the remaining records
unchanged and in their original relative order. -/
theorem update_delete_frame (db : List User) (uid : Int) (upd r d : User)
    (db₁ db₂ : List User) :
    (update_user db uid upd = Except.ok (r, db₁) →
      ∃ l₁ u l₂, db = l₁ ++ u :: l₂ ∧ u.id = uid ∧ db₁ = l₁ ++ r :: l₂ ∧
        db₁.length = db.length ∧ ∀ v ∈ db, v.id ≠ uid → v ∈ db₁) ∧
    (delete_user db uid = Except.ok (d, db₂) →
      ∃ l₁ l₂, db = l₁ ++ d :: l₂ ∧ d.id = uid ∧ db₂ = l₁ ++ l₂ ∧
        db₂.length + 1 = db.length ∧ db₂.Sublist db) := by
  constructor
  · intro h
    obtain ⟨l₁, u, l₂, hdb, _, huid, _, hdb'⟩ :=
      update_user_ok_decomp db uid upd r db₁ h
    refine ⟨l₁, u, l₂, hdb, huid, hdb', by rw [hdb, hdb']; simp, ?_⟩
    intro v hv hvid
    rw [hdb] at hv
    rw [hdb']
    rcases List.mem_append.mp hv with hv | hv
    · exact List.mem_append_left _ hv
    · rcases List.mem_cons.mp hv with hv | hv
      · exact absurd (hv ▸ huid) hvid
      · exact List.mem_append_right _ (List.mem_cons_of_mem r hv)
  · intro h
    obtain ⟨l₁, l₂, hdb, _, hdid, hdb'⟩ :=
      delete_user_ok_decomp db uid d db₂ h
    refine ⟨l₁, l₂, hdb, hdid, hdb', ?_, delete_user_sublist db uid d db₂ h⟩
    rw [hdb, hdb']
    simp [List.length_append]
    omega

theorem update_delete_frame_holds :
    ∃ l₁ u l₂, db_users = l₁ ++ u :: l₂ ∧ u.id = 1 ∧
      [updatedSeed1, seedUser2] = l₁ ++ updatedSeed1 :: l₂ ∧
      List.length [updatedSeed1, seedUser2] = db_users.length ∧
      ∀ v ∈ db_users, v.id ≠ 1 → v ∈ [updatedSeed1, seedUser2] :=
  (update_delete_frame db_users 1 updInput updatedSeed1 newUser
    [updatedSeed1, seedUser2] []).1 rfl

end UserApi
